import Mathlib

set_option maxRecDepth 8000

/-!
Shallow embedding of the YSC1 stream cipher (crate `ysc1`, sources under
`src/`).  Machine `u64` words are modelled as `Nat` reduced modulo `2 ^ 64`
where the Rust code wraps; 16-word states are `List Nat` of length 16;
byte strings are `List Nat`; a `panic!`/`assert!` failure is modelled as
`none` of an `Option` result.
-/

/-- The modulus of 64-bit machine words (`u64` arithmetic wraps mod `2^64`). -/
def WMOD : Nat := 2 ^ 64

/-- `u64::rotate_left`: rotate the low 64 bits of `x` left by `r` (for `0 < r < 64`). -/
def rotl64 (x r : Nat) : Nat := ((x <<< r) % WMOD) ||| (x >>> (64 - r))

/-- Modelled from the spec: rotation constant `R1 = 11` (§4.1).  `core.rs` imports
`R1` from the crate root but `lib.rs` does not define it. -/
def R1 : Nat := 11

/-- Modelled from the spec: rotation constant `R2 = 27` (§4.1), missing from `lib.rs`. -/
def R2 : Nat := 27

/-- Modelled from the spec: rotation constant `R3 = 43` (§4.1), missing from `lib.rs`. -/
def R3 : Nat := 43

/-- Modelled from the spec: `STATE_WORDS = 16` (§3, "ordered array of 16 64-bit
words"), imported by `core.rs` but not defined in `lib.rs`. -/
def STATE_WORDS : Nat := 16

/-- Modelled from the spec: `KEYSTREAM_WORDS = 8` (§4.6, "Encode scratch words
[0,8)"), imported by `soft.rs` but not defined in `lib.rs`. -/
def KEYSTREAM_WORDS : Nat := 8

/-- `Ysc1Core::f_function` from `src/core.rs`:
`y = x + rotl(x,R1); z = y ^ rotl(y,R2); z + rotl(z,R3)` with wrapping adds. -/
def f_function (x : Nat) : Nat :=
  let y := (x + rotl64 x R1) % WMOD
  let z := y ^^^ rotl64 y R2
  (z + rotl64 z R3) % WMOD

/-- `Ysc1Core::lm_quad_round` from `src/core.rs`: the Lai-Massey mixer on the
four state words at indices `i0 i1 i2 i3`. -/
def lm_quad_round (s : List Nat) (i0 i1 i2 i3 : Nat) : List Nat :=
  let x0 := s.getD i0 0
  let x1 := s.getD i1 0
  let x2 := s.getD i2 0
  let x3 := s.getD i3 0
  let t0 := f_function (x0 ^^^ x2)
  let t1 := f_function (x1 ^^^ x3)
  let y0 := (x0 + t0) % WMOD
  let y1 := (x1 + t1) % WMOD
  let y2 := (x2 + t0) % WMOD
  let y3 := (x3 + t1) % WMOD
  ((((s.set i0 (y0 ^^^ y2)).set i1 (y1 ^^^ y3)).set i2 y0).set i3 y1)

/-- Modelled from the spec: the diagonal permutation table
`P = [0,5,10,15,4,9,14,3,8,13,2,7,12,1,6,11]` (§4.3), imported by `core.rs`
but not defined in `lib.rs`. -/
def P : List Nat := [0, 5, 10, 15, 4, 9, 14, 3, 8, 13, 2, 7, 12, 1, 6, 11]

/-- `Ysc1Core::permutation_round` from `src/core.rs`: the four quad rounds on
quadruples (0..3), (4..7), (8..11), (12..15), then the whole-array relabeling
`temp[i] = state[P[i]]` computed from the full prior array. -/
def permutation_round (s : List Nat) : List Nat :=
  let s := lm_quad_round s 0 1 2 3
  let s := lm_quad_round s 4 5 6 7
  let s := lm_quad_round s 8 9 10 11
  let s := lm_quad_round s 12 13 14 15
  (List.range STATE_WORDS).map fun i => s.getD (P.getD i 0) 0

/-- `n` iterations of `permutation_round` (the `for _ in 0..N` loops of
`core.rs` and `soft.rs`). -/
def iterRounds : Nat → List Nat → List Nat
  | 0, s => s
  | n + 1, s => iterRounds n (permutation_round s)

/-- The `Ysc1Variant` trait of `src/lib.rs`: per-variant parameter set.
Sizes are in bytes, as in the Rust trait. -/
structure Ysc1Variant where
  KEY_SIZE : Nat
  NONCE_SIZE : Nat
  INIT_ROUNDS : Nat
  KEYSTREAM_ROUNDS : Nat

/-- `Ysc1_512` from `src/lib.rs`: 64-byte key, 64-byte nonce, 16 init rounds,
and `KEYSTREAM_ROUNDS = 1` ("Lai-Massey uses 1 round per block"). -/
def Ysc1_512 : Ysc1Variant :=
  { KEY_SIZE := 64, NONCE_SIZE := 64, INIT_ROUNDS := 16, KEYSTREAM_ROUNDS := 1 }

/-- `Ysc1_1024` from `src/lib.rs`: 128-byte key, 64-byte nonce, 20 init rounds,
and `KEYSTREAM_ROUNDS = 1`. -/
def Ysc1_1024 : Ysc1Variant :=
  { KEY_SIZE := 128, NONCE_SIZE := 64, INIT_ROUNDS := 20, KEYSTREAM_ROUNDS := 1 }

/-- Modelled from the spec: `KEY_WORDS` (§3 Variant Descriptor).  `core.rs` uses
`V::KEY_WORDS` but the trait in `lib.rs` only declares `KEY_SIZE` (bytes); the
spec values 8 and 16 equal `KEY_SIZE / 8`. -/
def Ysc1Variant.KEY_WORDS (V : Ysc1Variant) : Nat := V.KEY_SIZE / 8

/-- Modelled from the spec: `NONCE_WORDS` (§3 Variant Descriptor), equal to
`NONCE_SIZE / 8`; the trait in `lib.rs` only declares `NONCE_SIZE`. -/
def Ysc1Variant.NONCE_WORDS (V : Ysc1Variant) : Nat := V.NONCE_SIZE / 8

/-- `u64::from_le_bytes`: assemble a word from a little-endian byte list. -/
def fromLEBytes (bs : List Nat) : Nat := bs.foldr (fun b acc => b + 256 * acc) 0

/-- `u64::to_le_bytes`: the 8 little-endian bytes of a word. -/
def toLEBytes (w : Nat) : List Nat :=
  [w % 256, (w >>> 8) % 256, (w >>> 16) % 256, (w >>> 24) % 256,
   (w >>> 32) % 256, (w >>> 40) % 256, (w >>> 48) % 256, (w >>> 56) % 256]

/-- `bytes.chunks_exact(8)` decoded with `u64::from_le_bytes`: word `j` is the
little-endian value of bytes `[8*j, 8*j+8)`; a trailing partial chunk is dropped. -/
def leWords (bs : List Nat) : List Nat :=
  (List.range (bs.length / 8)).map fun j => fromLEBytes ((bs.drop (8 * j)).take 8)

/-- The `for (i, chunk) in ...enumerate { state[off + i] = word }` loops of
`KeyIvInit::new` in `src/core.rs`: store the words `ws` at consecutive
indices starting at `off`. -/
def placeWords (s : List Nat) (off : Nat) (ws : List Nat) : List Nat :=
  match ws with
  | [] => s
  | w :: rest => placeWords (s.set off w) (off + 1) rest

/-- The `state[i] ^= word` loop of the XOR-fold branch of `KeyIvInit::new`
in `src/core.rs`. -/
def xorPlace (s : List Nat) (off : Nat) (ws : List Nat) : List Nat :=
  match ws with
  | [] => s
  | w :: rest => xorPlace (s.set off ((s.getD off 0) ^^^ w)) (off + 1) rest

/-- `KeyIvInit::new` for `Ysc1Core<V>` from `src/core.rs`: zero state, decode
key words at `[0, KEY_WORDS)`, then either decode the nonce at
`[KEY_WORDS, KEY_WORDS + NONCE_WORDS)` (when `KEY_WORDS + NONCE_WORDS ≤ 16`)
or XOR the nonce words into the low-index words, set word 12 to 0, and run
`INIT_ROUNDS` permutation rounds in place. -/
def ysc1_new (V : Ysc1Variant) (key iv : List Nat) : List Nat :=
  let s0 := List.replicate STATE_WORDS 0
  let s1 := placeWords s0 0 (leWords key)
  let s2 :=
    if V.KEY_WORDS + V.NONCE_WORDS ≤ STATE_WORDS then
      placeWords s1 V.KEY_WORDS (leWords iv)
    else
      xorPlace s1 0 (leWords iv)
  let s3 := s2.set 12 0
  iterRounds V.INIT_ROUNDS s3

/-- `run_rounds::<V>` from `src/backends/soft.rs`: `KEYSTREAM_ROUNDS`
permutation rounds on a copy of the state. -/
def run_rounds (V : Ysc1Variant) (s : List Nat) : List Nat :=
  iterRounds V.KEYSTREAM_ROUNDS s

/-- `StreamBackend::gen_ks_block` from `src/backends/soft.rs`: increment the
persistent counter word 12 (mod `2^64`); the `assert!(state[12] != 0)` panic
on wrap-around is modelled as `none`; otherwise run `run_rounds` on a copy of
the updated state, encode words `[0, KEYSTREAM_WORDS)` as little-endian bytes
and XOR them into the caller's 64-byte `block`.  Returns the processed block
and the updated persistent state. -/
def gen_ks_block (V : Ysc1Variant) (s block : List Nat) : Option (List Nat × List Nat) :=
  let c := (s.getD 12 0 + 1) % WMOD
  if c = 0 then none
  else
    let s' := s.set 12 c
    let final_state := run_rounds V s'
    let keystream_bytes := ((final_state.take KEYSTREAM_WORDS).map toLEBytes).flatten
    some (List.zipWith (fun b ks => b ^^^ ks) block keystream_bytes, s')

/-- `StreamCipherSeekCore::get_block_pos` from `src/core.rs`: the counter is
state word 12. -/
def get_block_pos (s : List Nat) : Nat := s.getD 12 0

/-- `StreamCipherSeekCore::set_block_pos` from `src/core.rs`: directly
overwrite state word 12. -/
def set_block_pos (s : List Nat) (pos : Nat) : List Nat := s.set 12 pos

/-- Repeated `gen_ks_block` on all-zero 64-byte blocks: the concatenated
keystream of `n` consecutive blocks (XOR with zero bytes yields the raw
keystream), threading the persistent state; `none` if any block hits the
counter-overflow panic. -/
def keystream_blocks (V : Ysc1Variant) : Nat → List Nat → Option (List Nat)
  | 0, _ => some []
  | n + 1, s =>
    match gen_ks_block V s (List.replicate 64 0) with
    | none => none
    | some (ks, s') => (keystream_blocks V n s').map fun rest => ks ++ rest

/-- `apply_keystream` of a freshly constructed cipher (the
`StreamCipherCoreWrapper` glue): XOR the message with the first
`msg.length` bytes of the keystream, generating `⌈msg.length / 64⌉` blocks;
a trailing partial block consumes a prefix of the final keystream block. -/
def apply_keystream (V : Ysc1Variant) (key iv msg : List Nat) : Option (List Nat) :=
  (keystream_blocks V ((msg.length + 63) / 64) (ysc1_new V key iv)).map
    fun ks => List.zipWith (fun b k => b ^^^ k) msg ks

/-- `arx_round_simd` from `src/arx.rs`, lanes written out as 4-element lists:
first layer `a[i] = (x[i] + next[i]) <<< R[i]` with the swizzled neighbour
vectors, second layer `b_l[i] = (a_l[i] ^ p2[i]) <<< S_L[i]` and
`b_r[i] = (a_l[i] ^ p2'[i]) <<< S_R[i]` (the source XORs `a_l`, not `a_r`,
into the second lane group). -/
def arx_round_simd (xl xr : List Nat) : List Nat × List Nat :=
  let rL : List Nat := [11, 12, 13, 14]
  let rR : List Nat := [15, 16, 17, 18]
  let sL : List Nat := [7, 9, 11, 13]
  let sR : List Nat := [15, 17, 19, 21]
  let xp1l : List Nat := [xl.getD 1 0, xl.getD 2 0, xl.getD 3 0, xr.getD 0 0]
  let xp1r : List Nat := [xr.getD 1 0, xr.getD 2 0, xr.getD 3 0, xl.getD 0 0]
  let a_l := (List.range 4).map fun i =>
    rotl64 ((xl.getD i 0 + xp1l.getD i 0) % WMOD) (rL.getD i 0)
  let a_r := (List.range 4).map fun i =>
    rotl64 ((xr.getD i 0 + xp1r.getD i 0) % WMOD) (rR.getD i 0)
  let ap2l : List Nat := [a_l.getD 2 0, a_l.getD 3 0, a_r.getD 0 0, a_r.getD 1 0]
  let ap2r : List Nat := [a_r.getD 2 0, a_r.getD 3 0, a_l.getD 0 0, a_l.getD 1 0]
  let b_l := (List.range 4).map fun i =>
    rotl64 (a_l.getD i 0 ^^^ ap2l.getD i 0) (sL.getD i 0)
  let b_r := (List.range 4).map fun i =>
    rotl64 (a_l.getD i 0 ^^^ ap2r.getD i 0) (sR.getD i 0)
  (b_l, b_r)

/-- `permutation_simd` from `src/backends/simd.rs`: XOR-based Lai-Massey step
on the four 4-word groups `a b c d`, then `rotate_left(1)` of the 16-word
array. -/
def permutation_simd (s : List Nat) : List Nat :=
  let a := s.take 4
  let b := (s.drop 4).take 4
  let c := (s.drop 8).take 4
  let d := (s.drop 12).take 4
  let delta_l := List.zipWith (fun x y => x ^^^ y) a c
  let delta_r := List.zipWith (fun x y => x ^^^ y) b d
  let t := arx_round_simd delta_l delta_r
  let sa := List.zipWith (fun x y => x ^^^ y) a t.1
  let sb := List.zipWith (fun x y => x ^^^ y) b t.2
  let sc := List.zipWith (fun x y => x ^^^ y) c t.1
  let sd := List.zipWith (fun x y => x ^^^ y) d t.2
  let temp := sa ++ sb ++ sc ++ sd
  temp.drop 1 ++ temp.take 1

/-- `n` iterations of `permutation_simd`. -/
def iterRoundsSimd : Nat → List Nat → List Nat
  | 0, s => s
  | n + 1, s => iterRoundsSimd n (permutation_simd s)

/-- `StreamBackend::gen_ks_block` from `src/backends/simd.rs`: increment the
separate `counter` field (no overflow check), XOR the new counter into
working word 0, run `KEYSTREAM_ROUNDS` SIMD permutations and write words
`[0, 8)` as little-endian bytes directly into the block.  Returns the block
and the new counter (the persistent state is not modified). -/
def gen_ks_block_simd (V : Ysc1Variant) (s : List Nat) (counter : Nat) :
    List Nat × Nat :=
  let c := (counter + 1) % WMOD
  let working := s.set 0 ((s.getD 0 0) ^^^ c)
  let wf := iterRoundsSimd V.KEYSTREAM_ROUNDS working
  (((wf.take 8).map toLEBytes).flatten, c)

/-- The reference Lai-Massey quad mixer, written as in the specification:
`t0 = F(x0 xor x2)`, `t1 = F(x1 xor x3)`, `y0 = x0+t0`, `y1 = x1+t1`,
`y2 = x2+t0`, `y3 = x3+t1` (mod `2^64`), new values
`(y0 xor y2, y1 xor y3, y0, y1)`. -/
def quadMixSpec (x0 x1 x2 x3 : Nat) : Nat × Nat × Nat × Nat :=
  let t0 := f_function (x0 ^^^ x2)
  let t1 := f_function (x1 ^^^ x3)
  let y0 := (x0 + t0) % WMOD
  let y1 := (x1 + t1) % WMOD
  let y2 := (x2 + t0) % WMOD
  let y3 := (x3 + t1) % WMOD
  (y0 ^^^ y2, y1 ^^^ y3, y0, y1)

/-- The reference Permutation Round, written as in the specification: apply
the quad mixer independently to quadruples (0..3), (4..7), (8..11), (12..15),
then relabel the whole state as `new[i] = old[P[i]]`, reading the entire
prior array before any write.  States not of length 16 are mapped to `[]`. -/
def permutation_round_spec (s : List Nat) : List Nat :=
  match s with
  | [x0, x1, x2, x3, x4, x5, x6, x7, x8, x9, x10, x11, x12, x13, x14, x15] =>
    let q0 := quadMixSpec x0 x1 x2 x3
    let q1 := quadMixSpec x4 x5 x6 x7
    let q2 := quadMixSpec x8 x9 x10 x11
    let q3 := quadMixSpec x12 x13 x14 x15
    let mixed := [q0.1, q0.2.1, q0.2.2.1, q0.2.2.2,
                  q1.1, q1.2.1, q1.2.2.1, q1.2.2.2,
                  q2.1, q2.2.1, q2.2.2.1, q2.2.2.2,
                  q3.1, q3.2.1, q3.2.2.1, q3.2.2.2]
    (List.range 16).map fun i => mixed.getD (P.getD i 0) 0
  | _ => []

/-- The Key/Nonce Schedule, written as in the specification (§4.5 / claim C8):
the 16-word state is described index-wise — key words at `[0, KEY_WORDS)`,
and, selected purely by whether `KEY_WORDS + NONCE_WORDS ≤ 16`, either nonce
words at `[KEY_WORDS, KEY_WORDS + NONCE_WORDS)` or each nonce word XORed into
the corresponding low-index word — then word 12 is set to 0 and
`INIT_ROUNDS` permutation rounds run. -/
def ysc1_new_spec (V : Ysc1Variant) (key iv : List Nat) : List Nat :=
  let kw := leWords key
  let nw := leWords iv
  let placed : List Nat :=
    if V.KEY_WORDS + V.NONCE_WORDS ≤ 16 then
      (List.range 16).map fun i =>
        if i < V.KEY_WORDS then kw.getD i 0
        else if i < V.KEY_WORDS + V.NONCE_WORDS then nw.getD (i - V.KEY_WORDS) 0
        else 0
    else
      (List.range 16).map fun i =>
        (if i < V.KEY_WORDS then kw.getD i 0 else 0) ^^^
          (if i < V.NONCE_WORDS then nw.getD i 0 else 0)
  iterRounds V.INIT_ROUNDS (placed.set 12 0)

/-! Helper lemmas about the list operations used by the embedding. -/

theorem getD_set_ite (l : List Nat) (i j v : Nat) :
    (l.set i v).getD j 0 = if i = j ∧ i < l.length then v else l.getD j 0 := by
  simp only [List.getD_eq_getElem?_getD, List.getElem?_set]
  by_cases h1 : i = j
  · subst h1
    by_cases h2 : i < l.length
    · simp [h2]
    · simp [h2, List.getElem?_eq_none (by omega : l.length ≤ i)]
  · simp [h1]

theorem getD_replicate_zero (n i : Nat) : (List.replicate n (0 : Nat)).getD i 0 = 0 := by
  simp only [List.getD_eq_getElem?_getD, List.getElem?_replicate]
  split <;> simp

theorem placeWords_length (ws : List Nat) : ∀ (s : List Nat) (off : Nat),
    (placeWords s off ws).length = s.length := by
  induction ws with
  | nil => intro s off; rfl
  | cons w rest ih => intro s off; rw [placeWords, ih, List.length_set]

theorem xorPlace_length (ws : List Nat) : ∀ (s : List Nat) (off : Nat),
    (xorPlace s off ws).length = s.length := by
  induction ws with
  | nil => intro s off; rfl
  | cons w rest ih => intro s off; rw [xorPlace, ih, List.length_set]

theorem placeWords_getD (ws : List Nat) : ∀ (s : List Nat) (off i : Nat),
    off + ws.length ≤ s.length →
    (placeWords s off ws).getD i 0 =
      if off ≤ i ∧ i < off + ws.length then ws.getD (i - off) 0 else s.getD i 0 := by
  induction ws with
  | nil =>
    intro s off i _
    rw [placeWords, if_neg (by simp only [List.length_nil]; omega)]
  | cons w rest ih =>
    intro s off i h
    simp only [List.length_cons] at h
    have hlen : off < s.length := by omega
    rw [placeWords, ih (s.set off w) (off + 1) i (by rw [List.length_set]; omega)]
    rw [getD_set_ite]
    simp only [List.length_cons]
    by_cases hio : i = off
    · subst hio
      rw [if_neg (by omega), if_pos ⟨rfl, hlen⟩, if_pos (by omega)]
      simp
    · by_cases hin : off + 1 ≤ i ∧ i < off + 1 + rest.length
      · rw [if_pos hin, if_pos (by omega)]
        have hsub : i - off = (i - (off + 1)) + 1 := by omega
        rw [hsub, List.getD_cons_succ]
      · rw [if_neg hin, if_neg (by omega), if_neg (by omega)]

theorem xorPlace_getD (ws : List Nat) : ∀ (s : List Nat) (off i : Nat),
    off + ws.length ≤ s.length →
    (xorPlace s off ws).getD i 0 =
      if off ≤ i ∧ i < off + ws.length then (s.getD i 0) ^^^ ws.getD (i - off) 0
      else s.getD i 0 := by
  induction ws with
  | nil =>
    intro s off i _
    rw [xorPlace, if_neg (by simp only [List.length_nil]; omega)]
  | cons w rest ih =>
    intro s off i h
    simp only [List.length_cons] at h
    have hlen : off < s.length := by omega
    rw [xorPlace, ih _ (off + 1) i (by rw [List.length_set]; omega)]
    rw [getD_set_ite]
    simp only [List.length_cons]
    by_cases hio : i = off
    · subst hio
      rw [if_neg (by omega), if_pos ⟨rfl, hlen⟩, if_pos (by omega)]
      simp
    · by_cases hin : off + 1 ≤ i ∧ i < off + 1 + rest.length
      · rw [if_pos hin, if_neg (by omega), if_pos (by omega)]
        have hsub : i - off = (i - (off + 1)) + 1 := by omega
        rw [hsub, List.getD_cons_succ]
      · rw [if_neg hin, if_neg (by omega), if_neg (by omega)]

theorem leWords_length (bs : List Nat) : (leWords bs).length = bs.length / 8 := by
  simp [leWords]

theorem leWords_getD (bs : List Nat) (j : Nat) (h : j < bs.length / 8) :
    (leWords bs).getD j 0 = fromLEBytes ((bs.drop (8 * j)).take 8) := by
  rw [leWords, List.getD_eq_getElem _ _ (by simpa using h)]
  rw [List.getElem_map, List.getElem_range]

/-- Characterization of `ysc1_new` by the specification-shaped formula: the
two definitions agree whenever the key and nonce byte lengths match the
variant's declared word counts (and the word counts fit the state). -/
theorem ysc1_new_eq_spec (V : Ysc1Variant) (key iv : List Nat)
    (hK : V.KEY_WORDS ≤ 16) (hN : V.NONCE_WORDS ≤ 16)
    (hkey : key.length = 8 * V.KEY_WORDS) (hiv : iv.length = 8 * V.NONCE_WORDS) :
    ysc1_new V key iv = ysc1_new_spec V key iv := by
  have hkw : (leWords key).length = V.KEY_WORDS := by
    rw [leWords_length, hkey, Nat.mul_div_cancel_left _ (by norm_num)]
  have hnw : (leWords iv).length = V.NONCE_WORDS := by
    rw [leWords_length, hiv, Nat.mul_div_cancel_left _ (by norm_num)]
  simp only [ysc1_new, ysc1_new_spec, STATE_WORDS]
  apply congrArg (iterRounds V.INIT_ROUNDS)
  apply congrArg (fun l => List.set l 12 0)
  by_cases hb : V.KEY_WORDS + V.NONCE_WORDS ≤ 16
  · rw [if_pos hb, if_pos hb]
    apply List.ext_getElem
    · rw [placeWords_length, placeWords_length, List.length_replicate,
        List.length_map, List.length_range]
    · intro i h1 h2
      have hi16 : i < 16 := by
        rwa [placeWords_length, placeWords_length, List.length_replicate] at h1
      rw [← List.getD_eq_getElem _ 0 h1]
      rw [List.getElem_map, List.getElem_range]
      rw [placeWords_getD _ _ _ _
            (by rw [placeWords_length, List.length_replicate, hnw]; omega)]
      rw [placeWords_getD _ _ _ _ (by rw [List.length_replicate, hkw]; omega)]
      rw [hkw, hnw, getD_replicate_zero]
      simp only [Nat.zero_le, true_and, Nat.zero_add, Nat.sub_zero]
      by_cases hc1 : V.KEY_WORDS ≤ i ∧ i < V.KEY_WORDS + V.NONCE_WORDS
      · rw [if_pos hc1, if_neg (by omega), if_pos (by omega)]
      · rw [if_neg hc1]
        by_cases hc2 : i < V.KEY_WORDS
        · rw [if_pos hc2, if_pos hc2]
        · rw [if_neg hc2, if_neg hc2, if_neg (by omega)]
  · rw [if_neg hb, if_neg hb]
    apply List.ext_getElem
    · rw [xorPlace_length, placeWords_length, List.length_replicate,
        List.length_map, List.length_range]
    · intro i h1 h2
      have hi16 : i < 16 := by
        rwa [xorPlace_length, placeWords_length, List.length_replicate] at h1
      rw [← List.getD_eq_getElem _ 0 h1]
      rw [List.getElem_map, List.getElem_range]
      rw [xorPlace_getD _ _ _ _
            (by rw [placeWords_length, List.length_replicate, hnw]; omega)]
      rw [placeWords_getD _ _ _ _ (by rw [List.length_replicate, hkw]; omega)]
      rw [hkw, hnw, getD_replicate_zero]
      simp only [Nat.zero_le, true_and, Nat.zero_add, Nat.sub_zero]
      by_cases hc1 : i < V.NONCE_WORDS
      · rw [if_pos hc1, if_pos hc1]
      · rw [if_neg hc1, if_neg hc1, Nat.xor_zero]

theorem permutation_round_length (s : List Nat) : (permutation_round s).length = 16 := by
  simp [permutation_round, STATE_WORDS]

theorem iterRounds_length : ∀ (n : Nat) (s : List Nat), s.length = 16 →
    (iterRounds n s).length = 16
  | 0, _, h => h
  | n + 1, s, _ => iterRounds_length n _ (permutation_round_length s)

theorem ysc1_new_length (V : Ysc1Variant) (key iv : List Nat) :
    (ysc1_new V key iv).length = 16 := by
  simp only [ysc1_new]
  apply iterRounds_length
  rw [List.length_set]
  split
  · rw [placeWords_length, placeWords_length, List.length_replicate]
    rfl
  · rw [xorPlace_length, placeWords_length, List.length_replicate]
    rfl

theorem flatten_toLEBytes_length (l : List Nat) :
    ((l.map toLEBytes).flatten).length = 8 * l.length := by
  induction l with
  | nil => rfl
  | cons w rest ih =>
    simp only [List.map_cons, List.flatten_cons, List.length_append, ih,
      List.length_cons, toLEBytes]
    simp only [List.length_cons, List.length_nil]
    omega

theorem gen_ks_block_some (V : Ysc1Variant) (s b ks s' : List Nat)
    (hs : s.length = 16) (h : gen_ks_block V s b = some (ks, s')) :
    ks.length = min b.length 64 ∧ s'.length = 16 := by
  simp only [gen_ks_block, run_rounds] at h
  by_cases hc : (s.getD 12 0 + 1) % WMOD = 0
  · rw [if_pos hc] at h
    cases h
  · rw [if_neg hc] at h
    rw [Option.some_inj, Prod.mk.injEq] at h
    obtain ⟨h1, h2⟩ := h
    subst h1
    subst h2
    constructor
    · rw [List.length_zipWith, flatten_toLEBytes_length, List.length_take,
        iterRounds_length _ _ (by rw [List.length_set]; exact hs)]
      simp [KEYSTREAM_WORDS, Nat.min_def]
    · rw [List.length_set]
      exact hs

theorem keystream_blocks_length (V : Ysc1Variant) :
    ∀ (n : Nat) (s ks : List Nat), s.length = 16 →
      keystream_blocks V n s = some ks → ks.length = 64 * n := by
  intro n
  induction n with
  | zero =>
    intro s ks _ h
    simp only [keystream_blocks] at h
    rw [Option.some_inj] at h
    subst h
    rfl
  | succ n ih =>
    intro s ks hs h
    cases hg : gen_ks_block V s (List.replicate 64 0) with
    | none =>
      simp only [keystream_blocks, hg] at h
      exact Option.noConfusion h
    | some p =>
      obtain ⟨k1, s1⟩ := p
      simp only [keystream_blocks, hg, Option.map_eq_some'] at h
      obtain ⟨rest, hrest, hks⟩ := h
      have hp := gen_ks_block_some V s _ k1 s1 hs hg
      have hrlen : rest.length = 64 * n := ih s1 rest hp.2 hrest
      rw [← hks, List.length_append, hrlen]
      have hk1 : k1.length = 64 := by
        have := hp.1
        simpa using this
      rw [hk1]
      ring

theorem zipWith_xor_cancel : ∀ (m ks : List Nat), m.length ≤ ks.length →
    List.zipWith (fun b k => b ^^^ k)
      (List.zipWith (fun b k => b ^^^ k) m ks) ks = m := by
  intro m
  induction m with
  | nil => intro ks _; simp
  | cons b rest ih =>
    intro ks h
    cases ks with
    | nil => simp at h
    | cons k krest =>
      simp only [List.zipWith_cons_cons, Nat.xor_cancel_right]
      rw [ih krest (by simpa using h)]

theorem getD_map_range (f : Nat → Nat) (n i : Nat) (h : i < n) :
    ((List.range n).map f).getD i 0 = f i := by
  rw [List.getD_eq_getElem _ 0 (by simpa using h), List.getElem_map, List.getElem_range]

theorem chunk_left (X Y : List Nat) (k : Nat) (h : k + 8 ≤ X.length) :
    ((X ++ Y).drop k).take 8 = (X.drop k).take 8 := by
  rw [List.drop_append_of_le_length (by omega)]
  rw [List.take_append_of_le_length (by rw [List.length_drop]; omega)]

theorem drop_append_full (X Y : List Nat) (k : Nat) (h : X.length ≤ k) :
    (X ++ Y).drop k = Y.drop (k - X.length) := by
  conv_lhs => rw [show k = X.length + (k - X.length) by omega]
  rw [List.drop_append]

theorem chunk_agree_outside (T M1 M2 D : List Nat) (k : Nat)
    (hM : M1.length = M2.length)
    (h : k + 8 ≤ T.length ∨ T.length + M1.length ≤ k) :
    ((T ++ M1 ++ D).drop k).take 8 = ((T ++ M2 ++ D).drop k).take 8 := by
  rcases h with h | h
  · rw [chunk_left (T ++ M1) D k (by rw [List.length_append]; omega),
      chunk_left (T ++ M2) D k (by rw [List.length_append]; omega)]
    rw [chunk_left T M1 k h, chunk_left T M2 k h]
  · rw [drop_append_full (T ++ M1) D k (by rw [List.length_append]; omega),
      drop_append_full (T ++ M2) D k (by rw [List.length_append]; omega)]
    rw [List.length_append, List.length_append, hM]

set_option maxHeartbeats 4000000 in
/-- Claim C2: one Permutation Round on a 16-word state equals the reference
definition — the Lai-Massey quad mixer applied independently to quadruples
(0..3), (4..7), (8..11), (12..15), followed by the relabeling
`new[i] = old[P[i]]` that reads the entire prior array before any write. -/
theorem c2_permutation_round_matches_reference
    (x0 x1 x2 x3 x4 x5 x6 x7 x8 x9 x10 x11 x12 x13 x14 x15 : Nat) :
    permutation_round
        [x0, x1, x2, x3, x4, x5, x6, x7, x8, x9, x10, x11, x12, x13, x14, x15] =
      permutation_round_spec
        [x0, x1, x2, x3, x4, x5, x6, x7, x8, x9, x10, x11, x12, x13, x14, x15] := by
  rfl

/-- Claim C3: a keystream block generation increments the counter word
(mod `2^64`), runs the Permutation Round `KEYSTREAM_ROUNDS` times on a scratch
copy of the state whose word 12 holds the new counter (the persistent state's
other words untouched — the new persistent state is exactly
`s.set 12 c'`), and emits scratch words `[0, 8)` as 64 little-endian bytes
XORed with the caller-supplied data. -/
theorem c3_gen_ks_block_pipeline (V : Ysc1Variant) (s data : List Nat)
    (h : (s.getD 12 0 + 1) % WMOD ≠ 0) :
    gen_ks_block V s data =
      some
        (List.zipWith (fun b k => b ^^^ k) data
          ((((iterRounds V.KEYSTREAM_ROUNDS
                (s.set 12 ((s.getD 12 0 + 1) % WMOD))).take 8).map toLEBytes).flatten),
         s.set 12 ((s.getD 12 0 + 1) % WMOD)) := by
  simp only [gen_ks_block, run_rounds, KEYSTREAM_WORDS]
  rw [if_neg h]

/-- Witness for C3: the pipeline equation instantiated at the "512" variant,
state `[0, 1, ..., 15]` and an all-zero data block. -/
theorem c3_gen_ks_block_pipeline_witness :
    gen_ks_block Ysc1_512 (List.range 16) (List.replicate 64 0) =
      some
        (List.zipWith (fun b k => b ^^^ k) (List.replicate 64 0)
          ((((iterRounds Ysc1_512.KEYSTREAM_ROUNDS
                ((List.range 16).set 12
                  (((List.range 16).getD 12 0 + 1) % WMOD))).take 8).map toLEBytes).flatten),
         (List.range 16).set 12 (((List.range 16).getD 12 0 + 1) % WMOD)) :=
  c3_gen_ks_block_pipeline Ysc1_512 (List.range 16) (List.replicate 64 0) (by decide)

/-- Claim C5: requesting a block when the counter word holds `2^64 - 1`
deterministically takes the fatal path (the overflow assertion, modelled as
`none`), and for every counter value strictly below `2^64 - 1` block
generation does not take the fatal path. -/
theorem c5_counter_exhaustion_fatal (V : Ysc1Variant) (s data : List Nat)
    (h : s.getD 12 0 < WMOD) :
    gen_ks_block V s data = none ↔ s.getD 12 0 = WMOD - 1 := by
  have hw : WMOD = 18446744073709551616 := by norm_num [WMOD]
  simp only [gen_ks_block]
  by_cases hx : s.getD 12 0 = WMOD - 1
  · rw [hx]
    have h0 : (WMOD - 1 + 1) % WMOD = 0 := by
      have h1 : WMOD - 1 + 1 = WMOD := by rw [hw]
      rw [h1, Nat.mod_self]
    rw [h0]
    simp
  · have hlt : s.getD 12 0 + 1 < WMOD := by rw [hw] at h hx ⊢; omega
    rw [Nat.mod_eq_of_lt hlt]
    rw [if_neg (by omega)]
    exact iff_of_false (by simp) hx

/-- Witness for C5: the exhaustion equivalence instantiated at a state whose
counter word holds `2^64 - 1`. -/
theorem c5_counter_exhaustion_fatal_witness :
    gen_ks_block Ysc1_512 ((List.replicate 16 0).set 12 (WMOD - 1))
        (List.replicate 64 0) = none ↔
      ((List.replicate 16 0).set 12 (WMOD - 1)).getD 12 0 = WMOD - 1 :=
  c5_counter_exhaustion_fatal Ysc1_512 _ _ (by decide)

/-- Claim C8: construction zero-fills the 16-word state, decodes the key as
little-endian words into `[0, KEY_WORDS)`, then — selected purely by whether
`KEY_WORDS + NONCE_WORDS ≤ 16` — either decodes the nonce into
`[KEY_WORDS, KEY_WORDS + NONCE_WORDS)` or XORs each nonce word into the
corresponding low-index word, sets word 12 to 0, and runs `INIT_ROUNDS`
permutation rounds in place: `ysc1_new` agrees with the
specification-shaped `ysc1_new_spec` for every variant descriptor whose
word counts fit the state and matching byte lengths. -/
theorem c8_construction_matches_spec (V : Ysc1Variant) (key iv : List Nat)
    (hK : V.KEY_WORDS ≤ 16) (hN : V.NONCE_WORDS ≤ 16)
    (hkey : key.length = 8 * V.KEY_WORDS) (hiv : iv.length = 8 * V.NONCE_WORDS) :
    ysc1_new V key iv = ysc1_new_spec V key iv :=
  ysc1_new_eq_spec V key iv hK hN hkey hiv

/-- Witness for C8: the construction equation instantiated at the "512"
variant with concrete key and nonce bytes. -/
theorem c8_construction_matches_spec_witness :
    ysc1_new Ysc1_512 (List.replicate 64 1) (List.replicate 64 2) =
      ysc1_new_spec Ysc1_512 (List.replicate 64 1) (List.replicate 64 2) :=
  c8_construction_matches_spec Ysc1_512 (List.replicate 64 1) (List.replicate 64 2)
    (by decide) (by decide) (by decide) (by decide)

/-- Claim C1: the scalar and the vectorized strategies were claimed to produce
byte-identical 64-byte keystream blocks on identical (State, counter).  This
fails at the all-zero 16-word state with counter 0 in the "512" variant: the
SIMD backend (which implements a different XOR-based permutation, folds the
counter into word 0 instead of word 12, and skips the overflow check) emits a
different block than the scalar backend.  The repository's own
`ysc1_simd_vs_soft_consistency` test asserts equality, so this is a code bug. -/
theorem c1_backend_parity_fails :
    Option.map Prod.fst
        (gen_ks_block Ysc1_512 (List.replicate 16 0) (List.replicate 64 0)) ≠
      some (gen_ks_block_simd Ysc1_512 (List.replicate 16 0) 0).1 := by
  decide

/-- Claim C4, counterexample: the claim states `KEYSTREAM_ROUNDS = 8` for the
"512" variant and `10` for the "1024" variant; `lib.rs` sets both to 1. -/
theorem c4_round_counts_counterexample :
    Ysc1_512.KEYSTREAM_ROUNDS = 1 ∧ Ysc1_1024.KEYSTREAM_ROUNDS = 1 ∧
      Ysc1_512.KEYSTREAM_ROUNDS ≠ 8 ∧ Ysc1_1024.KEYSTREAM_ROUNDS ≠ 10 := by
  decide

/-- Claim C4, amended: there are exactly two variants, with parameter sets
"512" = (KEY_WORDS 8, NONCE_WORDS 8, INIT_ROUNDS 16, KEYSTREAM_ROUNDS 1) and
"1024" = (KEY_WORDS 16, NONCE_WORDS 8, INIT_ROUNDS 20, KEYSTREAM_ROUNDS 1). -/
theorem c4_variant_parameters_amended :
    Ysc1_512.KEY_WORDS = 8 ∧ Ysc1_512.NONCE_WORDS = 8 ∧
      Ysc1_512.INIT_ROUNDS = 16 ∧ Ysc1_512.KEYSTREAM_ROUNDS = 1 ∧
      Ysc1_1024.KEY_WORDS = 16 ∧ Ysc1_1024.NONCE_WORDS = 8 ∧
      Ysc1_1024.INIT_ROUNDS = 20 ∧ Ysc1_1024.KEYSTREAM_ROUNDS = 1 := by
  decide

/-- Claim C6: the counter was claimed to start at 0, the first block observing
counter 1.  In the code, construction zeroes word 12 and then runs the
`INIT_ROUNDS` permutation rounds, which scramble word 12; for key bytes all
`0x01` and nonce bytes all `0x02` ("512" variant) the post-construction
counter word is not 0 and the first generated block does not observe 1 —
contradicting the code's own comment "It will be incremented to 1 for the
first block". -/
theorem c6_counter_not_starting_at_zero :
    get_block_pos (ysc1_new Ysc1_512 (List.replicate 64 1) (List.replicate 64 2)) ≠ 0 ∧
      Option.map (fun p => get_block_pos p.2)
          (gen_ks_block Ysc1_512 (ysc1_new Ysc1_512 (List.replicate 64 1) (List.replicate 64 2))
            (List.replicate 64 0)) ≠ some 1 := by
  decide

/-- Claim C7: seeking a fresh instance to position N and generating one block
was claimed to equal the (N+1)-th sequentially generated block for every N.
At N = 0 with key bytes all `0x01` and nonce bytes all `0x02` ("512"
variant), the sought instance's block differs from the first sequential
block, because the post-construction counter word is not 0 (see C6); the
repository's own `ysc1_1024_seek_and_consistency` test asserts this very
equality for the "1024" variant. -/
theorem c7_seek_mismatch :
    Option.map Prod.fst
        (gen_ks_block Ysc1_512 (ysc1_new Ysc1_512 (List.replicate 64 1) (List.replicate 64 2))
          (List.replicate 64 0)) ≠
      Option.map Prod.fst
        (gen_ks_block Ysc1_512
          (set_block_pos (ysc1_new Ysc1_512 (List.replicate 64 1) (List.replicate 64 2)) 0)
          (List.replicate 64 0)) := by
  decide

/-- Claim C9: applying the keystream twice — encrypt then decrypt, each on a
freshly constructed instance with identical key, nonce and variant — restores
the original buffer, for every message length (including lengths that are not
multiples of 64).  Both applications construct the instance independently via
`ysc1_new`, so the statement also exercises determinism of construction. -/
theorem c9_xor_involution (V : Ysc1Variant) (key iv msg ct : List Nat)
    (h : apply_keystream V key iv msg = some ct) :
    apply_keystream V key iv ct = some msg := by
  simp only [apply_keystream] at h ⊢
  cases hks : keystream_blocks V ((msg.length + 63) / 64) (ysc1_new V key iv) with
  | none => rw [hks] at h; cases h
  | some ks =>
    rw [hks] at h
    rw [Option.map_some', Option.some_inj] at h
    have hlen : ks.length = 64 * ((msg.length + 63) / 64) :=
      keystream_blocks_length V _ _ _ (ysc1_new_length V key iv) hks
    have hmle : msg.length ≤ ks.length := by rw [hlen]; omega
    have hctlen : ct.length = msg.length := by
      rw [← h, List.length_zipWith]
      simp only [Nat.min_def]
      split <;> omega
    rw [hctlen, hks, Option.map_some', Option.some_inj]
    rw [← h, zipWith_xor_cancel msg ks hmle]

/-- Witness for C9: a 5-byte message (not a multiple of 64) encrypted and
decrypted with concrete key and nonce bytes on the "512" variant. -/
theorem c9_xor_involution_witness :
    apply_keystream Ysc1_512 (List.replicate 64 3) (List.replicate 64 4)
        ((apply_keystream Ysc1_512 (List.replicate 64 3) (List.replicate 64 4)
            [1, 2, 3, 4, 5]).getD []) =
      some [1, 2, 3, 4, 5] :=
  c9_xor_involution Ysc1_512 (List.replicate 64 3) (List.replicate 64 4) [1, 2, 3, 4, 5]
    ((apply_keystream Ysc1_512 (List.replicate 64 3) (List.replicate 64 4)
        [1, 2, 3, 4, 5]).getD [])
    (by decide)

/-- Claim C10: key/nonce material that maps to state word 12 has no effect on
the constructed state (and hence on the keystream), because construction sets
word 12 to 0 after the key and nonce have been placed: in the "512" variant
two nonces that differ only in bytes 32..40 yield identical post-construction
states, and in the "1024" variant two keys that differ only in bytes 96..104
do likewise.  "Differ only in bytes 32..40" is expressed by splitting the
byte string as `T ++ M ++ D` with `T` of length 32, `M` of length 8 and `D`
of length 24 (respectively 96 / 8 / 24 for the 1024-bit key). -/
theorem c10_word12_material_ignored
    (key T M1 M2 D Tk M1k M2k Dk iv : List Nat)
    (hkey : key.length = 64) (hT : T.length = 32) (hM1 : M1.length = 8)
    (hM2 : M2.length = 8) (hD : D.length = 24) (hTk : Tk.length = 96)
    (hM1k : M1k.length = 8) (hM2k : M2k.length = 8) (hDk : Dk.length = 24)
    (hiv : iv.length = 64) :
    ysc1_new Ysc1_512 key (T ++ M1 ++ D) = ysc1_new Ysc1_512 key (T ++ M2 ++ D) ∧
      ysc1_new Ysc1_1024 (Tk ++ M1k ++ Dk) iv =
        ysc1_new Ysc1_1024 (Tk ++ M2k ++ Dk) iv := by
  have hlen1 : (T ++ M1 ++ D).length = 64 := by simp [hT, hM1, hD]
  have hlen2 : (T ++ M2 ++ D).length = 64 := by simp [hT, hM2, hD]
  have hlen1k : (Tk ++ M1k ++ Dk).length = 128 := by simp [hTk, hM1k, hDk]
  have hlen2k : (Tk ++ M2k ++ Dk).length = 128 := by simp [hTk, hM2k, hDk]
  constructor
  · rw [ysc1_new_eq_spec Ysc1_512 key (T ++ M1 ++ D) (by decide) (by decide)
        (by rw [hkey]; decide) (by rw [hlen1]; decide),
      ysc1_new_eq_spec Ysc1_512 key (T ++ M2 ++ D) (by decide) (by decide)
        (by rw [hkey]; decide) (by rw [hlen2]; decide)]
    simp only [ysc1_new_spec]
    apply congrArg (iterRounds Ysc1_512.INIT_ROUNDS)
    rw [if_pos (by decide), if_pos (by decide)]
    apply List.ext_getElem
    · simp
    · intro i h1 h2
      have hi : i < 16 := by simpa using h1
      rw [← List.getD_eq_getElem _ 0 h1, ← List.getD_eq_getElem _ 0 h2,
        getD_set_ite, getD_set_ite]
      by_cases hi12 : i = 12
      · rw [if_pos ⟨hi12.symm, by simp⟩, if_pos ⟨hi12.symm, by simp⟩]
      · rw [if_neg (fun hc => hi12 hc.1.symm), if_neg (fun hc => hi12 hc.1.symm)]
        rw [getD_map_range _ _ _ hi, getD_map_range _ _ _ hi]
        have e1 : Ysc1_512.KEY_WORDS = 8 := rfl
        have e2 : Ysc1_512.NONCE_WORDS = 8 := rfl
        rw [e1, e2]
        by_cases hik : i < 8
        · rw [if_pos hik, if_pos hik]
        · rw [if_neg hik, if_neg hik, if_pos (by omega), if_pos (by omega)]
          rw [leWords_getD _ _ (by rw [hlen1]; omega),
            leWords_getD _ _ (by rw [hlen2]; omega)]
          exact congrArg fromLEBytes
            (chunk_agree_outside T M1 M2 D (8 * (i - 8)) (hM1.trans hM2.symm)
              (by rw [hT, hM1]; omega))
  · rw [ysc1_new_eq_spec Ysc1_1024 (Tk ++ M1k ++ Dk) iv (by decide) (by decide)
        (by rw [hlen1k]; decide) (by rw [hiv]; decide),
      ysc1_new_eq_spec Ysc1_1024 (Tk ++ M2k ++ Dk) iv (by decide) (by decide)
        (by rw [hlen2k]; decide) (by rw [hiv]; decide)]
    simp only [ysc1_new_spec]
    apply congrArg (iterRounds Ysc1_1024.INIT_ROUNDS)
    rw [if_neg (by decide), if_neg (by decide)]
    apply List.ext_getElem
    · simp
    · intro i h1 h2
      have hi : i < 16 := by simpa using h1
      rw [← List.getD_eq_getElem _ 0 h1, ← List.getD_eq_getElem _ 0 h2,
        getD_set_ite, getD_set_ite]
      by_cases hi12 : i = 12
      · rw [if_pos ⟨hi12.symm, by simp⟩, if_pos ⟨hi12.symm, by simp⟩]
      · rw [if_neg (fun hc => hi12 hc.1.symm), if_neg (fun hc => hi12 hc.1.symm)]
        rw [getD_map_range _ _ _ hi, getD_map_range _ _ _ hi]
        have e3 : Ysc1_1024.KEY_WORDS = 16 := rfl
        have e4 : Ysc1_1024.NONCE_WORDS = 8 := rfl
        rw [e3, e4]
        apply congrArg (fun x => x ^^^ (if i < 8 then (leWords iv).getD i 0 else 0))
        rw [if_pos hi, if_pos hi]
        rw [leWords_getD _ _ (by rw [hlen1k]; omega),
          leWords_getD _ _ (by rw [hlen2k]; omega)]
        exact congrArg fromLEBytes
          (chunk_agree_outside Tk M1k M2k Dk (8 * i) (hM1k.trans hM2k.symm)
            (by rw [hTk, hM1k]; omega))

/-- Witness for C10: concrete nonces differing only in bytes 32..40 and
concrete 1024-bit keys differing only in bytes 96..104. -/
theorem c10_word12_material_ignored_witness :
    ysc1_new Ysc1_512 (List.replicate 64 1)
        (List.replicate 32 2 ++ List.replicate 8 9 ++ List.replicate 24 3) =
      ysc1_new Ysc1_512 (List.replicate 64 1)
        (List.replicate 32 2 ++ List.replicate 8 7 ++ List.replicate 24 3) ∧
      ysc1_new Ysc1_1024
          (List.replicate 96 4 ++ List.replicate 8 8 ++ List.replicate 24 5)
          (List.replicate 64 6) =
        ysc1_new Ysc1_1024
          (List.replicate 96 4 ++ List.replicate 8 6 ++ List.replicate 24 5)
          (List.replicate 64 6) :=
  c10_word12_material_ignored (List.replicate 64 1) (List.replicate 32 2)
    (List.replicate 8 9) (List.replicate 8 7) (List.replicate 24 3)
    (List.replicate 96 4) (List.replicate 8 8) (List.replicate 8 6)
    (List.replicate 24 5) (List.replicate 64 6)
    (by decide) (by decide) (by decide) (by decide) (by decide) (by decide)
    (by decide) (by decide) (by decide) (by decide)
